import Mathlib

/-!
# Verification of the OpenClaw storage abstraction layer

Shallow embedding of the storage layer (transcript URI scheme, storage
service routing, the event-memory backend, the file backend, and the
blob-decoding helpers) together with proofs of the specification claims.

Strings from the TypeScript source are modelled as `List Char`; values
stored in the backends are modelled by an opaque type parameter `V`
(JSON (de)serialization of stored documents is treated as the identity
on that abstract value domain).
-/

namespace OpenClaw

/-! ## Transcript URI layer (src/storage/transcript-uri.ts) -/

/-- The `agentcore://` scheme prefix (constant `AGENTCORE_SCHEME`). -/
def agentcoreScheme : List Char := "agentcore://".toList

/-- Result type of `parseTranscriptUri` (type `ParsedTranscriptUri`). -/
inductive ParsedTranscriptUri where
  | file (path : List Char)
  | agentcore (memoryArn : List Char) (sessionId : List Char)
  deriving DecidableEq, Repr

/-- The two `throw new Error(...)` sites in `parseTranscriptUri`. -/
inductive UriError where
  /-- "Invalid AgentCore URI: missing sessionId in ..." -/
  | missingSessionId (uri : List Char)
  /-- "Invalid AgentCore URI: ..." -/
  | invalidUri (uri : List Char)
  deriving DecidableEq, Repr

/-- Index of the last occurrence of `c` (JS `String.prototype.lastIndexOf`,
with `none` standing for the JS result `-1`). -/
def lastIdxOf (c : Char) : List Char → Option Nat
  | [] => none
  | x :: xs =>
    match lastIdxOf c xs with
    | some i => some (i + 1)
    | none => if x = c then some 0 else none

/-- `isAgentCoreUri`: the string starts with `agentcore://`. -/
def isAgentCoreUri (uri : List Char) : Bool :=
  agentcoreScheme.isPrefixOf uri

/-- `parseTranscriptUri`: split the post-scheme remainder at the last `/`
into `memoryArn` and `sessionId`; errors model the two `throw` sites. -/
def parseTranscriptUri (uri : List Char) : Except UriError ParsedTranscriptUri :=
  if isAgentCoreUri uri then
    let withoutScheme := uri.drop agentcoreScheme.length
    match lastIdxOf '/' withoutScheme with
    | none => .error (.missingSessionId uri)
    | some lastSlash =>
      let memoryArn := withoutScheme.take lastSlash
      let sessionId := withoutScheme.drop (lastSlash + 1)
      if memoryArn = [] ∨ sessionId = [] then .error (.invalidUri uri)
      else .ok (.agentcore memoryArn sessionId)
  else .ok (.file uri)

/-- `buildAgentCoreTranscriptUri`: `agentcore://` ++ arn ++ `/` ++ sid. -/
def buildAgentCoreTranscriptUri (memoryArn sessionId : List Char) : List Char :=
  agentcoreScheme ++ (memoryArn ++ ('/' :: sessionId))

instance {ε α : Type} [DecidableEq ε] [DecidableEq α] : DecidableEq (Except ε α) := fun x y =>
  match x, y with
  | .ok a, .ok b =>
    if h : a = b then isTrue (by rw [h]) else
      isFalse (by intro he; injection he; contradiction)
  | .error a, .error b =>
    if h : a = b then isTrue (by rw [h]) else
      isFalse (by intro he; injection he; contradiction)
  | .ok _, .error _ => isFalse (by intro he; cases he)
  | .error _, .ok _ => isFalse (by intro he; cases he)

/-! ### Lemmas about `lastIdxOf` -/

theorem lastIdxOf_eq_none_iff (c : Char) (l : List Char) :
    lastIdxOf c l = none ↔ c ∉ l := by
  induction l with
  | nil => simp [lastIdxOf]
  | cons x xs ih =>
    simp only [lastIdxOf, List.mem_cons]
    cases h : lastIdxOf c xs with
    | some i =>
      have hmem : c ∈ xs := by
        by_contra hn
        rw [ih.mpr hn] at h
        cases h
      simp [hmem]
    | none =>
      have hx : c ∉ xs := ih.mp h
      by_cases hxc : x = c
      · subst hxc
        simp [hx]
      · simp [hxc, hx, Ne.symm hxc]

theorem lastIdxOf_append_last (l r : List Char) (c : Char) (hr : c ∉ r) :
    lastIdxOf c (l ++ c :: r) = some l.length := by
  induction l with
  | nil =>
    simp only [List.nil_append, lastIdxOf, List.length_nil]
    rw [(lastIdxOf_eq_none_iff c r).mpr hr]
    simp
  | cons x xs ih =>
    simp only [List.cons_append, lastIdxOf, List.append_eq, ih, List.length_cons]

theorem isAgentCoreUri_scheme_append (rest : List Char) :
    isAgentCoreUri (agentcoreScheme ++ rest) = true := by
  simp [isAgentCoreUri, List.isPrefixOf_iff_prefix]

/-- Behaviour of `parseTranscriptUri` on a remainder of the form
`arn ++ "/" ++ sid` with a slash-free `sid` (so that the separating slash
is the last one). -/
theorem parseTranscriptUri_split (arn sid : List Char) (hsid : '/' ∉ sid) :
    parseTranscriptUri (agentcoreScheme ++ (arn ++ ('/' :: sid))) =
      if arn = [] ∨ sid = [] then
        .error (.invalidUri (agentcoreScheme ++ (arn ++ ('/' :: sid))))
      else .ok (.agentcore arn sid) := by
  have hdrop : (agentcoreScheme ++ (arn ++ ('/' :: sid))).drop agentcoreScheme.length =
      arn ++ ('/' :: sid) := List.drop_left _ _
  have hlast : lastIdxOf '/' (arn ++ ('/' :: sid)) = some arn.length :=
    lastIdxOf_append_last arn sid '/' hsid
  have htake : (arn ++ ('/' :: sid)).take arn.length = arn := List.take_left _ _
  have hdrop2 : (arn ++ ('/' :: sid)).drop (arn.length + 1) = sid := by
    have : arn ++ ('/' :: sid) = (arn ++ ['/']) ++ sid := by simp
    rw [this]
    have hlen : (arn ++ ['/']).length = arn.length + 1 := by simp
    rw [← hlen]
    exact List.drop_left _ _
  simp only [parseTranscriptUri, isAgentCoreUri_scheme_append, if_true, hdrop, hlast,
    htake, hdrop2]

/-- Behaviour of `parseTranscriptUri` when the remainder has no slash. -/
theorem parseTranscriptUri_noSlash (rest : List Char) (h : '/' ∉ rest) :
    parseTranscriptUri (agentcoreScheme ++ rest) =
      .error (.missingSessionId (agentcoreScheme ++ rest)) := by
  have hdrop : (agentcoreScheme ++ rest).drop agentcoreScheme.length = rest :=
    List.drop_left _ _
  have hlast : lastIdxOf '/' rest = none := (lastIdxOf_eq_none_iff _ _).mpr h
  simp only [parseTranscriptUri, isAgentCoreUri_scheme_append, if_true, hdrop, hlast]

/-- C7: `parseTranscriptUri` splits the post-scheme remainder at the last
slash into `memoryArn` and `sessionId`, errors when either part is empty
or no slash is present, and parses the S3 example URI as specified. -/
theorem claim_C7 :
    (∀ arn sid : List Char, '/' ∉ sid →
      parseTranscriptUri (agentcoreScheme ++ (arn ++ ('/' :: sid))) =
        if arn = [] ∨ sid = [] then
          .error (.invalidUri (agentcoreScheme ++ (arn ++ ('/' :: sid))))
        else .ok (.agentcore arn sid)) ∧
    (∀ rest : List Char, '/' ∉ rest →
      parseTranscriptUri (agentcoreScheme ++ rest) =
        .error (.missingSessionId (agentcoreScheme ++ rest))) ∧
    parseTranscriptUri
        "agentcore://arn:aws:bedrock-agentcore:us-east-1:123:memory/m1/s-xyz".toList =
      .ok (.agentcore "arn:aws:bedrock-agentcore:us-east-1:123:memory/m1".toList
        "s-xyz".toList) :=
  ⟨parseTranscriptUri_split, parseTranscriptUri_noSlash, by decide⟩

/-- Witness for C7 at concrete inputs. -/
theorem claim_C7_witness :
    parseTranscriptUri (agentcoreScheme ++ (['m'] ++ ('/' :: ['s']))) =
        .ok (.agentcore ['m'] ['s']) ∧
    parseTranscriptUri (agentcoreScheme ++ ['x']) =
        .error (.missingSessionId (agentcoreScheme ++ ['x'])) := by
  refine ⟨(claim_C7.1 ['m'] ['s'] (by decide)).trans (by decide), ?_⟩
  exact claim_C7.2.1 ['x'] (by decide)

/-- C3 counterexample: the build/parse round trip fails for the non-empty
inputs `arn = "a"`, `sid = "b/c"` (the last slash falls inside `sid`). -/
theorem claim_C3_counterexample :
    ¬ (parseTranscriptUri (buildAgentCoreTranscriptUri ['a'] ['b', '/', 'c']) =
        .ok (.agentcore ['a'] ['b', '/', 'c'])) := by
  decide

/-- C3 (amended): the round trip `parse ∘ build` is the identity for
non-empty `arn` and non-empty `sid` that contains no slash. -/
theorem claim_C3 (arn sid : List Char) (harn : arn ≠ []) (hsid : sid ≠ [])
    (hslash : '/' ∉ sid) :
    parseTranscriptUri (buildAgentCoreTranscriptUri arn sid) =
      .ok (.agentcore arn sid) := by
  rw [buildAgentCoreTranscriptUri, parseTranscriptUri_split arn sid hslash,
    if_neg (by simp [harn, hsid])]

/-- Witness for C3 at concrete inputs. -/
theorem claim_C3_witness :
    parseTranscriptUri (buildAgentCoreTranscriptUri ['a'] ['b']) =
      .ok (.agentcore ['a'] ['b']) :=
  claim_C3 ['a'] ['b'] (by decide) (by decide) (by decide)

/-! ## Storage service routing (src/storage/storage-service.ts)

Configuration strings follow JavaScript truthiness: an empty string counts
as "not configured" (the source tests `this.config.dynamodb?.tableName`
and friends for truthiness). -/

/-- Service mode (`StorageConfig.type`). -/
inductive StorageType where
  | file
  | agentcore
  | hybrid
  deriving DecidableEq, Repr

/-- The closed set of namespaces (`StorageNamespaces`). -/
inductive StorageNamespace where
  | sessions
  | transcripts
  | auth
  | config
  deriving DecidableEq, Repr

/-- Data classification (`"local" | "cloud"`); `loc` models `"local"`. -/
inductive DataClassification where
  | loc
  | cloud
  deriving DecidableEq, Repr

/-- Per-namespace classification overrides (`DataClassificationConfig`). -/
structure DataClassificationConfig where
  sessions : Option DataClassification := none
  transcripts : Option DataClassification := none
  auth : Option DataClassification := none
  config : Option DataClassification := none
  deriving DecidableEq, Repr

/-- AgentCore configuration; only the routing-relevant `memoryArn` field is
modelled (`region` and `namespacePrefix` do not affect routing). -/
structure AgentCoreStorageConfig where
  memoryArn : String
  deriving DecidableEq, Repr

/-- DynamoDB configuration; only `tableName` affects routing. -/
structure DynamoDBStorageConfig where
  tableName : String
  deriving DecidableEq, Repr

/-- Secrets Manager configuration; only `secretArn` affects routing. -/
structure SecretsManagerConfig where
  secretArn : String
  deriving DecidableEq, Repr

/-- Storage configuration (`StorageConfig`), after the constructor applied
the `config.type ?? "file"` default. -/
structure StorageConfig where
  type : StorageType := .file
  dataClassification : Option DataClassificationConfig := none
  agentcore : Option AgentCoreStorageConfig := none
  dynamodb : Option DynamoDBStorageConfig := none
  secretsManager : Option SecretsManagerConfig := none
  deriving DecidableEq, Repr

/-- Backend tag (`IStorageBackend.type`) of the backend a route resolves
to; `dynamodb` is the tag the DynamoDB backend declares. -/
inductive BackendTag where
  | file
  | agentcore
  | dynamodb
  | secretsManager
  deriving DecidableEq, Repr

/-- The `throw` sites reachable from `getBackend`. -/
inductive ServiceError where
  | notInitialized
  | agentcoreMissingArn
  | dynamoMissingTable
  | secretsMissingArn
  deriving DecidableEq, Repr

/-- `resolveClassification`: explicit per-namespace override first, then
mode defaults (cloud for sessions/transcripts in agentcore/hybrid mode). -/
def resolveClassification (ns : StorageNamespace) (c : StorageConfig) :
    DataClassification :=
  let override : Option DataClassification :=
    match c.dataClassification with
    | none => none
    | some cls =>
      match ns with
      | .sessions => cls.sessions
      | .transcripts => cls.transcripts
      | .auth => cls.auth
      | .config => cls.config
  match override with
  | some v => v
  | none =>
    if c.type = .agentcore ∨ c.type = .hybrid then
      match ns with
      | .sessions => .cloud
      | .transcripts => .cloud
      | .auth => .loc
      | .config => .loc
    else .loc

/-- Truthiness of `config.agentcore?.memoryArn`. -/
def agentcoreConfigured (c : StorageConfig) : Bool :=
  match c.agentcore with
  | some a => a.memoryArn ≠ ""
  | none => false

/-- Truthiness of `config.dynamodb?.tableName`. -/
def dynamoConfigured (c : StorageConfig) : Bool :=
  match c.dynamodb with
  | some d => d.tableName ≠ ""
  | none => false

/-- `getAgentCoreBackend`: throws when `memoryArn` is missing. -/
def getAgentCoreTag (c : StorageConfig) : Except ServiceError BackendTag :=
  if agentcoreConfigured c then .ok .agentcore else .error .agentcoreMissingArn

/-- `getDynamoDBBackend`: throws when `tableName` is missing. -/
def getDynamoDBTag (c : StorageConfig) : Except ServiceError BackendTag :=
  if dynamoConfigured c then .ok .dynamodb else .error .dynamoMissingTable

/-- `getSecretsManagerBackend`: throws when `secretArn` is missing. -/
def getSecretsManagerTag (c : StorageConfig) : Except ServiceError BackendTag :=
  match c.secretsManager with
  | some s => if s.secretArn ≠ "" then .ok .secretsManager else .error .secretsMissingArn
  | none => .error .secretsMissingArn

/-- The routing logic of `StorageService.getBackend` after the initialized
check; the early returns of the hybrid block are modelled by an `Option`
that falls through to the remaining checks when `none`. -/
def routeBackend (c : StorageConfig) (ns : StorageNamespace) :
    Except ServiceError BackendTag :=
  let classification := resolveClassification ns c
  if ns = .auth ∧ c.secretsManager.isSome then
    getSecretsManagerTag c
  else
    let hybridPick : Option (Except ServiceError BackendTag) :=
      if c.type = .hybrid ∧ classification = .cloud then
        if ns = .sessions then
          if dynamoConfigured c then some (getDynamoDBTag c)
          else if agentcoreConfigured c then some (getAgentCoreTag c)
          else none
        else if ns = .transcripts then
          if agentcoreConfigured c then some (getAgentCoreTag c)
          else none
        else none
      else none
    match hybridPick with
    | some r => r
    | none =>
      if c.type = .agentcore ∧ classification = .cloud then getAgentCoreTag c
      else .ok .file

/-- Service state: the configuration plus the `initialized` flag. -/
structure SvcState where
  config : StorageConfig
  initialized : Bool
  deriving DecidableEq, Repr

/-- `new StorageService(config)`: not yet initialized. -/
def mkService (c : StorageConfig) : SvcState :=
  { config := c, initialized := false }

/-- A successful `initialize()`: sets the flag (cloud-backend init failures
are logged and swallowed, so they do not affect the flag). -/
def initializeService (s : SvcState) : SvcState :=
  { s with initialized := true }

/-- `close()`: resets the `initialized` flag. -/
def closeService (s : SvcState) : SvcState :=
  { s with initialized := false }

/-- `StorageService.getBackend`: throws unless initialized, then routes. -/
def SvcState.getBackend (s : SvcState) (ns : StorageNamespace) :
    Except ServiceError BackendTag :=
  if s.initialized then routeBackend s.config ns else .error .notInitialized

/-- A namespace is resolvable under a configuration when the backend its
route demands is configured: for `auth` with a secrets-manager section the
`secretArn` must be non-empty, and in agentcore mode a cloud namespace
needs `memoryArn`; all other routes fall back to the file backend. -/
def resolvableNs (c : StorageConfig) (ns : StorageNamespace) : Bool :=
  if ns = .auth ∧ c.secretsManager.isSome then
    match c.secretsManager with
    | some s => s.secretArn ≠ ""
    | none => false
  else if c.type = .agentcore ∧ resolveClassification ns c = .cloud then
    agentcoreConfigured c
  else
    true

/-- Whether a routing result is a backend (no throw). -/
def isOkTag : Except ServiceError BackendTag → Bool
  | .ok _ => true
  | .error _ => false

/-- The S6 configuration: hybrid mode, `dynamodb.tableName = "T"`,
`agentcore.memoryArn = "A"`, no secrets manager. -/
def s6Config : StorageConfig :=
  { type := .hybrid, agentcore := some ⟨"A"⟩, dynamodb := some ⟨"T"⟩ }

/-- C4: in hybrid mode with both cloud backends configured the routes are
sessions → dynamodb, transcripts → agentcore, auth/config → file; and with
cloud sessions but no DynamoDB table, sessions fall back to the agentcore
backend when `memoryArn` is configured, else to the file backend. -/
theorem claim_C4 :
    ((initializeService (mkService s6Config)).getBackend .sessions = .ok .dynamodb ∧
     (initializeService (mkService s6Config)).getBackend .transcripts = .ok .agentcore ∧
     (initializeService (mkService s6Config)).getBackend .auth = .ok .file ∧
     (initializeService (mkService s6Config)).getBackend .config = .ok .file) ∧
    (∀ c : StorageConfig, c.type = .hybrid →
      resolveClassification .sessions c = .cloud →
      dynamoConfigured c = false →
      (initializeService (mkService c)).getBackend .sessions =
        (if agentcoreConfigured c then .ok .agentcore else .ok .file)) := by
  constructor
  · exact ⟨by decide, by decide, by decide, by decide⟩
  · intro c htype hcls hdyn
    by_cases hac : agentcoreConfigured c = true
    · simp [SvcState.getBackend, initializeService, mkService, routeBackend, htype,
        hcls, hdyn, hac, getAgentCoreTag]
    · simp only [Bool.not_eq_true] at hac
      simp [SvcState.getBackend, initializeService, mkService, routeBackend, htype,
        hcls, hdyn, hac, getAgentCoreTag]

/-- Witness for C4 at a concrete configuration: hybrid mode with cloud
sessions, no DynamoDB table and no memory ARN routes sessions to file. -/
theorem claim_C4_witness :
    (initializeService (mkService { type := .hybrid })).getBackend .sessions =
      .ok .file := by
  have h := claim_C4.2 { type := .hybrid } rfl (by decide) (by decide)
  rw [h]
  decide

/-- C10: before `initialize()` (and after `close()`) every `getBackend`
call throws the not-initialized error; after a successful `initialize()`
the call returns a backend for every resolvable namespace. -/
theorem claim_C10 :
    (∀ (c : StorageConfig) (ns : StorageNamespace),
      (mkService c).getBackend ns = .error .notInitialized) ∧
    (∀ (s : SvcState) (ns : StorageNamespace),
      (closeService s).getBackend ns = .error .notInitialized) ∧
    (∀ (c : StorageConfig) (ns : StorageNamespace),
      resolvableNs c ns = true →
      isOkTag ((initializeService (mkService c)).getBackend ns) = true) := by
  refine ⟨fun c ns => rfl, fun s ns => rfl, ?_⟩
  intro c ns h
  simp only [SvcState.getBackend, initializeService, mkService, if_pos] at *
  rw [resolvableNs] at h
  rw [routeBackend]
  by_cases h1 : ns = .auth ∧ c.secretsManager.isSome
  · rw [if_pos h1] at h
    rw [if_pos h1]
    rcases hsm : c.secretsManager with _ | s
    · rw [hsm] at h1
      simp at h1
    · rw [hsm] at h
      have hne : s.secretArn ≠ "" := by simpa using h
      simp [getSecretsManagerTag, hsm, hne, isOkTag]
  · rw [if_neg h1] at h ⊢
    by_cases h2 : c.type = .agentcore ∧ resolveClassification ns c = .cloud
    · rw [if_pos h2] at h
      have hnothyb : ¬(c.type = .hybrid ∧ resolveClassification ns c = .cloud) := by
        intro hco
        rw [h2.1] at hco
        cases hco.1
      simp only [if_neg hnothyb]
      simp [if_pos h2, getAgentCoreTag, h, isOkTag]
    · rw [if_neg h2] at h
      by_cases h3 : c.type = .hybrid ∧ resolveClassification ns c = .cloud
      · simp only [if_pos h3]
        by_cases hs : ns = .sessions
        · subst hs
          by_cases hdy : dynamoConfigured c = true
          · simp [hdy, getDynamoDBTag, isOkTag]
          · simp only [Bool.not_eq_true] at hdy
            by_cases hac : agentcoreConfigured c = true
            · simp [hdy, hac, getAgentCoreTag, isOkTag]
            · simp only [Bool.not_eq_true] at hac
              simp [hdy, hac, if_neg h2, isOkTag]
        · by_cases ht : ns = .transcripts
          · subst ht
            by_cases hac : agentcoreConfigured c = true
            · simp [hs, hac, getAgentCoreTag, isOkTag]
            · simp only [Bool.not_eq_true] at hac
              simp [hs, hac, if_neg h2, isOkTag]
          · simp [hs, ht, if_neg h2, isOkTag]
      · simp [if_neg h3, if_neg h2, isOkTag]

/-- Witness for C10 at a concrete configuration and namespace. -/
theorem claim_C10_witness :
    isOkTag ((initializeService (mkService s6Config)).getBackend .sessions) = true :=
  claim_C10.2.2 s6Config .sessions (by decide)

/-! ## EventMemoryBackend (src/storage/backends/agentcore-memory-backend.ts)

The AgentCore memory service is modelled as a map from `(actorId,
sessionId)` to the session's event list, newest first (`ListEvents`
returns most-recent-first and `CreateEvent` prepends).  Each event is
identified with the blob of its first payload entry, which is the only
part the backend reads back.  `V` is the opaque domain of stored JSON
documents (`JSON.parse(JSON.stringify(v))` is the identity on it). -/

/-- Assoc-list lookup by decidable equality (JS `Map.get`). -/
def alookup {α β : Type} [DecidableEq α] (k : α) : List (α × β) → Option β
  | [] => none
  | (k2, v) :: rest => if k2 = k then some v else alookup k rest

/-- Remove every binding of `k` (JS `Map.delete`; maps hold each key once,
so erasing all occurrences gives the same observable map). -/
def aeraseAll {α β : Type} [DecidableEq α] (k : α) (l : List (α × β)) : List (α × β) :=
  l.filter (fun p => decide (p.1 ≠ k))

/-- Replace the binding of `k` (JS `Map.set`). -/
def asetMap {α β : Type} [DecidableEq α] (k : α) (v : β) (l : List (α × β)) :
    List (α × β) :=
  (k, v) :: aeraseAll k l

/-- Update the binding of `k` in place, or append a fresh one. -/
def aupsert {α β : Type} [DecidableEq α] (k : α) (f : Option β → β) :
    List (α × β) → List (α × β)
  | [] => [(k, f none)]
  | (k2, v) :: rest =>
    if k2 = k then (k2, f (some v)) :: rest else (k2, v) :: aupsert k f rest

/-- The blob of an event's first payload entry, as created by this
backend: `{_type:"kv",value}`, `{_type:"tombstone",deletedAt}` or
`{_type:"line",text}`. -/
inductive EvBlob (V : Type) where
  | kv (value : V)
  | tombstone (deletedAt : Nat)
  | line (text : List Char)
  deriving DecidableEq, Repr

/-- The remote memory resource: sessions addressed by (actorId,
sessionId), each holding its events newest first. -/
structure MemoryStore (V : Type) where
  sessions : List ((List Char × List Char) × List (EvBlob V))
  deriving DecidableEq, Repr

/-- The empty memory resource. -/
def emptyStore (V : Type) : MemoryStore V := ⟨[]⟩

/-- `CreateEvent`: prepend an event to the session, creating it if new. -/
def createEvent {V : Type} (st : MemoryStore V) (actor sid : List Char)
    (b : EvBlob V) : MemoryStore V :=
  ⟨aupsert (actor, sid) (fun evs => b :: evs.getD []) st.sessions⟩

/-- Events of a session, newest first (`ListEvents`). -/
def sessionEvents {V : Type} (st : MemoryStore V) (actor sid : List Char) :
    List (EvBlob V) :=
  (alookup (actor, sid) st.sessions).getD []

/-- Backend configuration fields that affect kv semantics (`memoryArn`
and `region` only select the remote resource, which is explicit here). -/
structure AgentCoreBackend where
  namespacePrefix : List Char
  cacheEnabled : Bool
  cacheTtlMs : Nat
  deriving DecidableEq, Repr

/-- `sanitizeKey`: characters outside `[a-zA-Z0-9_.-]` become `_`. -/
def sanitizeChar (c : Char) : Char :=
  if c.isAlphanum ∨ c = '_' ∨ c = '.' ∨ c = '-' then c else '_'

/-- `sanitizeKey` on a whole key. -/
def sanitizeKey (k : List Char) : List Char := k.map sanitizeChar

/-- `ACTOR_ID_PREFIX`. -/
def actorIdPrefix : List Char := "openclaw-storage".toList

/-- `KV_SESSION_PREFIX` (`"kv-"`). -/
def kvSessionPrefix : List Char := ['k', 'v', '-']

/-- `TRANSCRIPT_SESSION_PREFIX` (`"tr-"`). -/
def trSessionPrefix : List Char := ['t', 'r', '-']

/-- `buildActorId`: `openclaw-storage/<prefix?/><namespace>`. -/
def buildActorId (be : AgentCoreBackend) (ns : List Char) : List Char :=
  actorIdPrefix ++ '/' ::
    ((if be.namespacePrefix = [] then [] else be.namespacePrefix ++ ['/']) ++ ns)

/-- `buildKvSessionId`. -/
def buildKvSessionId (k : List Char) : List Char :=
  kvSessionPrefix ++ sanitizeKey k

/-- `buildTranscriptSessionId`. -/
def buildTranscriptSessionId (k : List Char) : List Char :=
  trSessionPrefix ++ sanitizeKey k

/-- Result of `get`: either the unwrapped `value` of a `kv` blob, or (the
legacy branch) the whole blob treated as the value. -/
inductive GetRes (V : Type) where
  | value (v : V)
  | rawBlob (b : EvBlob V)
  deriving DecidableEq, Repr

/-- Backend instance state: the remote store plus the per-instance read
cache (`cacheKey ↦ (value, loadedAt)`). -/
structure BackendState (V : Type) where
  store : MemoryStore V
  cache : List (List Char × (GetRes V × Nat))
  deriving DecidableEq, Repr

/-- A backend state over the empty store with an empty cache. -/
def emptyBackendState (V : Type) : BackendState V := ⟨emptyStore V, []⟩

/-- `getCacheKey`: `namespace:key`. -/
def cacheKey (ns k : List Char) : List Char := ns ++ ':' :: k

/-- `isCacheValid`: caching enabled and the entry is within TTL.  JS
`now - loadedAt` can be negative (future entry) and then passes the TTL
check; truncated `Nat` subtraction gives `0` and passes it too. -/
def isCacheValid (be : AgentCoreBackend) (now loadedAt : Nat) : Bool :=
  be.cacheEnabled && (now - loadedAt ≤ be.cacheTtlMs)

/-- The uncached part of `get`: read the single most recent event;
absent session or empty payload gives `null`, a tombstone gives `null`,
a `kv` blob gives its `value` (cached), any other blob is returned whole
(legacy branch, also cached). -/
def bgetStore {V : Type} (be : AgentCoreBackend) (st : BackendState V)
    (ns k : List Char) (now : Nat) : Option (GetRes V) × BackendState V :=
  let ck := cacheKey ns k
  match sessionEvents st.store (buildActorId be ns) (buildKvSessionId k) with
  | [] => (none, st)
  | b :: _ =>
    match b with
    | .tombstone _ => (none, st)
    | .kv v =>
      (some (.value v),
        if be.cacheEnabled then
          { st with cache := asetMap ck (GetRes.value v, now) st.cache }
        else st)
    | .line t =>
      (some (.rawBlob (.line t)),
        if be.cacheEnabled then
          { st with cache := asetMap ck (GetRes.rawBlob (.line t), now) st.cache }
        else st)

/-- `get`: serve from the cache when enabled and valid, else read the
store (`bgetStore`). -/
def bget {V : Type} (be : AgentCoreBackend) (st : BackendState V)
    (ns k : List Char) (now : Nat) : Option (GetRes V) × BackendState V :=
  match (if be.cacheEnabled then alookup (cacheKey ns k) st.cache else none) with
  | some (v, loadedAt) =>
    if isCacheValid be now loadedAt then (some v, st)
    else bgetStore be st ns k now
  | none => bgetStore be st ns k now

/-- `set`: invalidate the cache entry, then create one `kv` event. -/
def bset {V : Type} (be : AgentCoreBackend) (st : BackendState V)
    (ns k : List Char) (v : V) (_now : Nat) : BackendState V :=
  let st1 : BackendState V := { st with cache := aeraseAll (cacheKey ns k) st.cache }
  { st1 with
    store := createEvent st1.store (buildActorId be ns) (buildKvSessionId k) (.kv v) }

/-- `delete`: read first (`get`); absent keys return `false`; otherwise
invalidate the cache entry and create a tombstone event. -/
def bdelete {V : Type} (be : AgentCoreBackend) (st : BackendState V)
    (ns k : List Char) (now : Nat) : Bool × BackendState V :=
  let r := bget be st ns k now
  match r.1 with
  | none => (false, r.2)
  | some _ =>
    let st2 : BackendState V := { r.2 with cache := aeraseAll (cacheKey ns k) r.2.cache }
    (true,
      { st2 with
        store := createEvent st2.store (buildActorId be ns) (buildKvSessionId k)
          (.tombstone now) })

/-- The JS `!prefix || key.startsWith(prefix)` filter of `list`
(an absent or empty prefix passes everything). -/
def prefixPasses (pfx : Option (List Char)) (key : List Char) : Bool :=
  match pfx with
  | none => true
  | some p => p.isEmpty || p.isPrefixOf key

/-- `list`: enumerate the sessions of the namespace's actor, keep those
whose id starts with `kv-`, strip the prefix and apply the prefix filter.
No tombstone check is performed. -/
def blist {V : Type} (be : AgentCoreBackend) (st : BackendState V)
    (ns : List Char) (pfx : Option (List Char)) : List (List Char) :=
  let actor := buildActorId be ns
  let sids := st.store.sessions.filterMap
    (fun p => if p.1.1 = actor then some p.1.2 else none)
  sids.filterMap (fun sid =>
    if kvSessionPrefix.isPrefixOf sid then
      let key := sid.drop kvSessionPrefix.length
      if prefixPasses pfx key then some key else none
    else none)

/-! ### Assoc-list and store lemmas -/

theorem alookup_aeraseAll_self {α β : Type} [DecidableEq α] (k : α)
    (l : List (α × β)) : alookup k (aeraseAll k l) = none := by
  induction l with
  | nil => rfl
  | cons p rest ih =>
    by_cases h : p.1 = k
    · simpa [aeraseAll, h] using (by simpa [aeraseAll] using ih)
    · simpa [aeraseAll, List.filter_cons, h, alookup] using (by simpa [aeraseAll] using ih)

theorem alookup_aupsert_self {α β : Type} [DecidableEq α] (k : α) (f : Option β → β) :
    ∀ l : List (α × β), alookup k (aupsert k f l) = some (f (alookup k l))
  | [] => by simp [aupsert, alookup]
  | (k2, v) :: rest => by
    by_cases h : k2 = k
    · simp [aupsert, alookup, h]
    · simp [aupsert, alookup, h, alookup_aupsert_self k f rest]

theorem sessionEvents_createEvent_self {V : Type} (st : MemoryStore V)
    (a s : List Char) (b : EvBlob V) :
    sessionEvents (createEvent st a s b) a s = b :: sessionEvents st a s := by
  unfold sessionEvents createEvent
  rw [show (MemoryStore.mk (V := V)
      (aupsert (a, s) (fun evs => b :: evs.getD []) st.sessions)).sessions =
      aupsert (a, s) (fun evs => b :: evs.getD []) st.sessions from rfl]
  rw [alookup_aupsert_self]
  simp

theorem bgetStore_none_stable {V : Type} (be : AgentCoreBackend)
    (st : BackendState V) (ns k : List Char) (t1 : Nat)
    (h : (bgetStore be st ns k t1).1 = none) (t2 : Nat) :
    bgetStore be st ns k t2 = (none, st) := by
  unfold bgetStore at h ⊢
  cases hev : sessionEvents st.store (buildActorId be ns) (buildKvSessionId k) with
  | nil => simp [hev]
  | cons b tl =>
    rw [hev] at h
    cases b <;> simp_all

theorem bget_none_stable {V : Type} (be : AgentCoreBackend)
    (st : BackendState V) (ns k : List Char) (t1 t2 : Nat) (h12 : t1 ≤ t2)
    (h : (bget be st ns k t1).1 = none) :
    bget be st ns k t2 = (none, st) := by
  unfold bget at h ⊢
  cases hc : (if be.cacheEnabled then alookup (cacheKey ns k) st.cache else none) with
  | none =>
    rw [hc] at h
    change (bgetStore be st ns k t1).1 = none at h
    change bgetStore be st ns k t2 = (none, st)
    exact bgetStore_none_stable be st ns k t1 h t2
  | some e =>
    obtain ⟨v, la⟩ := e
    rw [hc] at h
    change (if isCacheValid be t1 la = true then ((some v : Option (GetRes V)), st)
      else bgetStore be st ns k t1).1 = none at h
    change (if isCacheValid be t2 la = true then ((some v : Option (GetRes V)), st)
      else bgetStore be st ns k t2) = (none, st)
    by_cases hv : isCacheValid be t1 la = true
    · rw [if_pos hv] at h
      cases h
    · rw [if_neg hv] at h
      have hv2 : ¬ isCacheValid be t2 la = true := by
        intro habs
        apply hv
        unfold isCacheValid at habs ⊢
        rcases Bool.and_eq_true_iff.mp habs with ⟨he, htl⟩
        refine Bool.and_eq_true_iff.mpr ⟨he, ?_⟩
        have h1 : t1 - la ≤ t2 - la := Nat.sub_le_sub_right h12 la
        have h2 : t2 - la ≤ be.cacheTtlMs := by simpa using htl
        simpa using le_trans h1 h2
      rw [if_neg hv2]
      exact bgetStore_none_stable be st ns k t1 h t2

theorem bget_none_state {V : Type} (be : AgentCoreBackend)
    (st : BackendState V) (ns k : List Char) (t : Nat)
    (h : (bget be st ns k t).1 = none) : (bget be st ns k t).2 = st := by
  have := bget_none_stable be st ns k t t (le_refl t) h
  rw [this]

/-- C5: on the event-memory backend, `delete` then `get` is absent (the
tombstone shadows prior events), `delete` returns `true` iff `get` saw a
non-tombstone value, and an immediate second `delete` returns `false`. -/
theorem claim_C5 {V : Type} (be : AgentCoreBackend) (st : BackendState V)
    (ns k : List Char) (t1 t2 : Nat) (h12 : t1 ≤ t2) :
    (bget be (bdelete be st ns k t1).2 ns k t2).1 = none ∧
    ((bdelete be st ns k t1).1 = true ↔ (bget be st ns k t1).1 ≠ none) ∧
    (bdelete be (bdelete be st ns k t1).2 ns k t2).1 = false := by
  cases hr : (bget be st ns k t1).1 with
  | none =>
    have hst : (bget be st ns k t1).2 = st := bget_none_state be st ns k t1 hr
    have hdel : bdelete be st ns k t1 = (false, st) := by
      simp only [bdelete, hr, hst]
    have hget2 : bget be st ns k t2 = (none, st) :=
      bget_none_stable be st ns k t1 t2 h12 hr
    have hget2fst : (bget be st ns k t2).1 = none := by rw [hget2]
    refine ⟨?_, ?_, ?_⟩
    · rw [hdel]
      exact hget2fst
    · rw [hdel]
      simp [hr]
    · rw [hdel]
      show (bdelete be st ns k t2).1 = false
      simp only [bdelete, hget2fst]
  | some res =>
    have hdel : bdelete be st ns k t1 =
        (true,
          { store := createEvent (bget be st ns k t1).2.store (buildActorId be ns)
              (buildKvSessionId k) (.tombstone t1),
            cache := aeraseAll (cacheKey ns k) (bget be st ns k t1).2.cache }) := by
      simp only [bdelete, hr]
    have hget3 : ∀ t : Nat, (bget be (bdelete be st ns k t1).2 ns k t).1 = none := by
      intro t
      rw [hdel]
      generalize (bget be st ns k t1).2 = Y
      have hclookup : alookup (cacheKey ns k)
          (aeraseAll (cacheKey ns k) Y.cache) = none :=
        alookup_aeraseAll_self _ _
      have hev := sessionEvents_createEvent_self Y.store
        (buildActorId be ns) (buildKvSessionId k) (EvBlob.tombstone t1)
      unfold bget
      cases hen : be.cacheEnabled <;> simp [hen, hclookup, bgetStore, hev]
    refine ⟨?_, ?_, ?_⟩
    · exact hget3 t2
    · rw [hdel]
      simp [hr]
    · have h0 := hget3 t2
      revert h0
      generalize (bdelete be st ns k t1).2 = X
      intro h0
      simp only [bdelete, h0]

/-- Witness for C5 at a concrete state and clock values. -/
theorem claim_C5_witness :
    (bget ⟨[], true, 45000⟩
        (bdelete ⟨[], true, 45000⟩ (emptyBackendState Nat) ['n'] ['k'] 0).2
        ['n'] ['k'] 1).1 = none ∧
    ((bdelete ⟨[], true, 45000⟩ (emptyBackendState Nat) ['n'] ['k'] 0).1 = true ↔
      (bget ⟨[], true, 45000⟩ (emptyBackendState Nat) ['n'] ['k'] 0).1 ≠ none) ∧
    (bdelete ⟨[], true, 45000⟩
        (bdelete ⟨[], true, 45000⟩ (emptyBackendState Nat) ['n'] ['k'] 0).2
        ['n'] ['k'] 1).1 = false :=
  claim_C5 ⟨[], true, 45000⟩ (emptyBackendState Nat) ['n'] ['k'] 0 1 (by decide)

/-- `get` right after `set` observes the freshly prepended `kv` event. -/
theorem bget_bset {V : Type} (be : AgentCoreBackend) (st : BackendState V)
    (ns k : List Char) (v : V) (tset tget : Nat) :
    (bget be (bset be st ns k v tset) ns k tget).1 = some (.value v) := by
  have hclookup : alookup (cacheKey ns k) (bset be st ns k v tset).cache = none := by
    show alookup (cacheKey ns k) (aeraseAll (cacheKey ns k) st.cache) = none
    exact alookup_aeraseAll_self _ _
  have hev : sessionEvents (bset be st ns k v tset).store (buildActorId be ns)
      (buildKvSessionId k) =
      EvBlob.kv v :: sessionEvents st.store (buildActorId be ns) (buildKvSessionId k) := by
    show sessionEvents (createEvent st.store (buildActorId be ns) (buildKvSessionId k)
      (.kv v)) (buildActorId be ns) (buildKvSessionId k) = _
    exact sessionEvents_createEvent_self _ _ _ _
  generalize hS : bset be st ns k v tset = S at hclookup hev
  unfold bget
  cases hen : be.cacheEnabled <;> simp [hen, hclookup, bgetStore, hev]

/-- C9: a `set` after a `delete` resurrects the key: the later `kv` event
shadows the tombstone, so `get` returns the new value. -/
theorem claim_C9 {V : Type} (be : AgentCoreBackend) (st : BackendState V)
    (ns k : List Char) (v0 v : V) (t1 t2 t3 t4 : Nat) :
    (bget be
        (bset be (bdelete be (bset be st ns k v0 t1) ns k t2).2 ns k v t3)
        ns k t4).1 = some (.value v) :=
  bget_bset be (bdelete be (bset be st ns k v0 t1) ns k t2).2 ns k v t3 t4

/-! ### `list` characterization (claim C1) -/

/-- What `list` extracts from a single session id (key-only view of the
body of the `list` loop); used to state lemmas about `blist`. -/
def listKeyFn (be : AgentCoreBackend) (ns : List Char) (pfx : Option (List Char))
    (ks : List Char × List Char) : Option (List Char) :=
  if ks.1 = buildActorId be ns then
    if kvSessionPrefix.isPrefixOf ks.2 then
      if prefixPasses pfx (ks.2.drop kvSessionPrefix.length) then
        some (ks.2.drop kvSessionPrefix.length)
      else none
    else none
  else none

theorem blist_eq_filterMap {V : Type} (be : AgentCoreBackend) (st : BackendState V)
    (ns : List Char) (pfx : Option (List Char)) :
    blist be st ns pfx =
      st.store.sessions.filterMap (fun p => listKeyFn be ns pfx p.1) := by
  simp only [blist]
  rw [List.filterMap_filterMap]
  refine congrFun (congrArg List.filterMap (funext fun p => ?_)) st.store.sessions
  by_cases hif : p.1.1 = buildActorId be ns <;> simp [hif, listKeyFn, Option.bind]

@[simp] theorem prefixPasses_none (key : List Char) : prefixPasses none key = true := rfl

theorem filterMap_eq_filter_filterMap {α γ : Type} (F G : α → Option γ)
    (q : γ → Bool)
    (h : ∀ a, F a = (G a).bind (fun y => if q y then some y else none)) :
    ∀ l : List α, l.filterMap F = (l.filterMap G).filter q
  | [] => rfl
  | a :: tl => by
    simp only [List.filterMap_cons, h a]
    cases hg : G a with
    | none =>
      simpa using filterMap_eq_filter_filterMap F G q h tl
    | some y =>
      cases hq : q y with
      | true =>
        simp [hq, List.filter_cons, filterMap_eq_filter_filterMap F G q h tl]
      | false =>
        simp [hq, List.filter_cons, filterMap_eq_filter_filterMap F G q h tl]

theorem listKeyFn_some_eq (be : AgentCoreBackend) (ns p : List Char)
    (a : List Char × List Char) :
    listKeyFn be ns (some p) a = (listKeyFn be ns none a).bind
      (fun y => if prefixPasses (some p) y then some y else none) := by
  by_cases h1 : a.1 = buildActorId be ns
  · by_cases h2 : kvSessionPrefix.isPrefixOf a.2 = true
    · have h2p := (List.isPrefixOf_iff_prefix).mp h2
      simp [listKeyFn, h1, h2p]
    · have h2p : ¬ kvSessionPrefix <+: a.2 := fun hc =>
        h2 ((List.isPrefixOf_iff_prefix).mpr hc)
      simp [listKeyFn, h1, h2p]
  · simp [listKeyFn, h1]

theorem blist_prefix_filter {V : Type} (be : AgentCoreBackend) (st : BackendState V)
    (ns p : List Char) :
    blist be st ns (some p) =
      (blist be st ns none).filter (fun key => prefixPasses (some p) key) := by
  rw [blist_eq_filterMap, blist_eq_filterMap]
  exact filterMap_eq_filter_filterMap _ _ _
    (fun a => listKeyFn_some_eq be ns p a.1) st.store.sessions

theorem mem_filterMap_fst_aupsert {α β γ : Type} [DecidableEq α] (h : α → Option γ)
    (k : α) (f : Option β → β) (l : List (α × β)) (x : γ)
    (hx : x ∈ l.filterMap (fun p => h p.1)) :
    x ∈ (aupsert k f l).filterMap (fun p => h p.1) := by
  induction l with
  | nil => simp at hx
  | cons q tl ih =>
    obtain ⟨k2, v⟩ := q
    by_cases he : k2 = k
    · subst he
      simpa [aupsert, List.filterMap_cons] using
        (by simpa [List.filterMap_cons] using hx)
    · simp only [List.filterMap_cons] at hx
      simp only [aupsert, he, if_false, List.filterMap_cons]
      cases hh : h k2 with
      | none =>
        rw [hh] at hx
        exact ih hx
      | some y =>
        rw [hh] at hx
        rcases List.mem_cons.mp hx with h1 | h1
        · exact List.mem_cons.mpr (Or.inl h1)
        · exact List.mem_cons.mpr (Or.inr (ih h1))

theorem mem_filterMap_fst_aupsert_self {α β γ : Type} [DecidableEq α]
    (h : α → Option γ) (k : α) (f : Option β → β) (l : List (α × β)) (x : γ)
    (hk : h k = some x) :
    x ∈ (aupsert k f l).filterMap (fun p => h p.1) := by
  induction l with
  | nil => simp [aupsert, hk]
  | cons q tl ih =>
    obtain ⟨k2, v⟩ := q
    by_cases he : k2 = k
    · subst he
      simp [aupsert, List.filterMap_cons, hk]
    · simp only [aupsert, he, if_false, List.filterMap_cons]
      cases hh : h k2 with
      | none => exact ih
      | some y => exact List.mem_cons.mpr (Or.inr ih)

theorem bgetStore_snd_store {V : Type} (be : AgentCoreBackend) (st : BackendState V)
    (ns k : List Char) (t : Nat) : (bgetStore be st ns k t).2.store = st.store := by
  unfold bgetStore
  cases hev : sessionEvents st.store (buildActorId be ns) (buildKvSessionId k) with
  | nil => rfl
  | cons b tl => cases b <;> cases hen : be.cacheEnabled <;> simp [hen]

theorem bget_snd_store {V : Type} (be : AgentCoreBackend) (st : BackendState V)
    (ns k : List Char) (t : Nat) : (bget be st ns k t).2.store = st.store := by
  unfold bget
  cases hc : (if be.cacheEnabled then alookup (cacheKey ns k) st.cache else none) with
  | none =>
    change (bgetStore be st ns k t).2.store = st.store
    exact bgetStore_snd_store be st ns k t
  | some e =>
    obtain ⟨v, la⟩ := e
    change (if isCacheValid be t la = true then ((some v : Option (GetRes V)), st)
      else bgetStore be st ns k t).2.store = st.store
    by_cases hv : isCacheValid be t la = true
    · rw [if_pos hv]
    · rw [if_neg hv]
      exact bgetStore_snd_store be st ns k t

theorem blist_subset_bdelete {V : Type} (be : AgentCoreBackend) (st : BackendState V)
    (ns k : List Char) (now : Nat) (pfx : Option (List Char)) (x : List Char)
    (hx : x ∈ blist be st ns pfx) :
    x ∈ blist be (bdelete be st ns k now).2 ns pfx := by
  cases hr : (bget be st ns k now).1 with
  | none =>
    have hst : (bget be st ns k now).2 = st := bget_none_state be st ns k now hr
    have : (bdelete be st ns k now).2 = st := by
      simp only [bdelete, hr, hst]
    rw [this]
    exact hx
  | some res =>
    have hdel : (bdelete be st ns k now).2 =
        { store := createEvent (bget be st ns k now).2.store (buildActorId be ns)
            (buildKvSessionId k) (.tombstone now),
          cache := aeraseAll (cacheKey ns k) (bget be st ns k now).2.cache } := by
      simp only [bdelete, hr]
    rw [hdel, blist_eq_filterMap]
    show x ∈ (aupsert (buildActorId be ns, buildKvSessionId k) _
      (bget be st ns k now).2.store.sessions).filterMap _
    rw [bget_snd_store]
    apply mem_filterMap_fst_aupsert
    rw [blist_eq_filterMap] at hx
    exact hx

theorem mem_blist_bset {V : Type} (be : AgentCoreBackend) (st : BackendState V)
    (ns k : List Char) (v : V) (t : Nat) :
    sanitizeKey k ∈ blist be (bset be st ns k v t) ns none := by
  rw [blist_eq_filterMap]
  show sanitizeKey k ∈ (aupsert (buildActorId be ns, buildKvSessionId k) _
    st.store.sessions).filterMap _
  apply mem_filterMap_fst_aupsert_self
  simp [listKeyFn, buildKvSessionId, prefixPasses, List.isPrefixOf_iff_prefix,
    List.prefix_append, List.drop_left]

/-- The S5 backend instance: no namespace prefix, default caching. -/
def s5Backend : AgentCoreBackend := ⟨[], true, 45000⟩

/-- The `"sessions"` namespace as a character list. -/
def sessionsNs : List Char := "sessions".toList

/-- The backend state after the S5 scenario `set("sessions","k","v1")`
followed by `delete("sessions","k")`. -/
def s5AfterDelete : Bool × BackendState String :=
  bdelete s5Backend (bset s5Backend (emptyBackendState String) sessionsNs ['k'] "v1" 0)
    sessionsNs ['k'] 1

/-- C1 counterexample: in the S5 scenario the delete succeeds and `get`
returns absent, yet `list("sessions")` still contains `"k"` — `list` does
not exclude tombstoned keys. -/
theorem claim_C1_counterexample :
    s5AfterDelete.1 = true ∧
    (bget s5Backend s5AfterDelete.2 sessionsNs ['k'] 2).1 = none ∧
    ['k'] ∈ blist s5Backend s5AfterDelete.2 sessionsNs none := by
  refine ⟨by decide, by decide, by decide⟩

/-- C1 (amended): `list(ns, prefix)` filters the kv-session keys by the
prefix only — it contains every key written by `set` (in sanitized form)
and is never shrunk by `delete`; tombstoned keys remain listed (in the S5
scenario `"k"` is still listed even though `get` is absent). -/
theorem claim_C1 :
    (∀ {V : Type} (be : AgentCoreBackend) (st : BackendState V) (ns p : List Char),
      blist be st ns (some p) =
        (blist be st ns none).filter (fun key => prefixPasses (some p) key)) ∧
    (∀ {V : Type} (be : AgentCoreBackend) (st : BackendState V) (ns k : List Char)
      (now : Nat) (pfx : Option (List Char)) (x : List Char),
      x ∈ blist be st ns pfx → x ∈ blist be (bdelete be st ns k now).2 ns pfx) ∧
    (∀ {V : Type} (be : AgentCoreBackend) (st : BackendState V) (ns k : List Char)
      (v : V) (t : Nat),
      sanitizeKey k ∈ blist be (bset be st ns k v t) ns none) ∧
    (s5AfterDelete.1 = true ∧
      (bget s5Backend s5AfterDelete.2 sessionsNs ['k'] 2).1 = none ∧
      blist s5Backend s5AfterDelete.2 sessionsNs none = [['k']]) :=
  ⟨fun be st ns p => blist_prefix_filter be st ns p,
   fun be st ns k now pfx x hx => blist_subset_bdelete be st ns k now pfx x hx,
   fun be st ns k v t => mem_blist_bset be st ns k v t,
   by decide, by decide, by decide⟩

/-- Witness for C1 (the delete-never-shrinks-list conjunct has a
membership hypothesis): discharged on the S5 scenario. -/
theorem claim_C1_witness :
    ['k'] ∈ blist s5Backend s5AfterDelete.2 sessionsNs none := by
  have hmem : ['k'] ∈ blist s5Backend
      (bset s5Backend (emptyBackendState String) sessionsNs ['k'] "v1" 0) sessionsNs
      none := by decide
  exact claim_C1.2.1 s5Backend
    (bset s5Backend (emptyBackendState String) sessionsNs ['k'] "v1" 0)
    sessionsNs ['k'] 1 none ['k'] hmem

/-! ## FileBackend transcripts (src/storage/backends/file-backend.ts)

`append`/`readLines` operate on one `.jsonl` file; the file is modelled
by `Option (List Char)` (`none` is a missing file, the `ENOENT` case). -/

/-- JS whitespace as tested by `String.prototype.trim` (ASCII part). -/
def isJsWs (c : Char) : Bool :=
  c = ' ' ∨ c = '\t' ∨ c = '\n' ∨ c = '\r' ∨ c = '\x0b' ∨ c = '\x0c'

/-- `append`: create the file if needed and append the line, adding a
trailing newline unless the line already ends with one. -/
def fappend (st : Option (List Char)) (line : List Char) : Option (List Char) :=
  let content := if line.getLast? = some '\n' then line else line ++ ['\n']
  some (st.getD [] ++ content)

/-- JS `String.prototype.split("\n")` (`"".split` gives `[""]`, a
trailing separator yields a final empty field). -/
def splitOnNl : List Char → List (List Char)
  | [] => [[]]
  | c :: rest =>
    if c = '\n' then [] :: splitOnNl rest
    else
      match splitOnNl rest with
      | [] => [[c]]
      | l :: ls => (c :: l) :: ls

/-- `readLines`: empty for a missing file (`ENOENT`), else split the
whole content on `\n` and keep the lines whose `trim()` is non-empty
(the yielded lines themselves are not trimmed). -/
def freadLines (st : Option (List Char)) : List (List Char) :=
  match st with
  | none => []
  | some content => (splitOnNl content).filter (fun l => ! l.all isJsWs)

/-- The file content produced by appending each line of `ls` in order
(each line newline-free), starting from an existing content. -/
def joinNl (ls : List (List Char)) : List Char :=
  (ls.map (fun l => l ++ ['\n'])).flatten

theorem fappend_no_newline (st : Option (List Char)) (l : List Char)
    (hl : '\n' ∉ l) : fappend st l = some (st.getD [] ++ (l ++ ['\n'])) := by
  unfold fappend
  have hlast : ¬ l.getLast? = some '\n' := by
    intro hc
    rcases List.mem_getLast?_eq_getLast (Option.mem_def.mpr hc) with ⟨hne, heq⟩
    exact hl (heq ▸ List.getLast_mem hne)
  rw [if_neg hlast]

theorem foldl_fappend_some (ls : List (List Char)) (h : ∀ l ∈ ls, '\n' ∉ l) :
    ∀ c : List Char, ls.foldl fappend (some c) = some (c ++ joinNl ls) := by
  induction ls with
  | nil =>
    intro c
    simp [joinNl]
  | cons l tl ih =>
    intro c
    have hl : '\n' ∉ l := h l (List.mem_cons_self l tl)
    rw [List.foldl_cons, fappend_no_newline (some c) l hl,
      ih (fun x hx => h x (List.mem_cons_of_mem l hx))]
    simp [joinNl]

theorem splitOnNl_append (l rest : List Char) (h : '\n' ∉ l) :
    splitOnNl (l ++ '\n' :: rest) = l :: splitOnNl rest := by
  induction l with
  | nil => simp [splitOnNl]
  | cons c tl ih =>
    have hc : ¬ c = '\n' := fun hcc => h (by rw [hcc]; exact List.mem_cons_self _ _)
    have ihh := ih (fun hx => h (List.mem_cons_of_mem c hx))
    simp only [List.cons_append, splitOnNl, hc, if_false, List.append_eq, ihh]

theorem freadLines_joinNl (ls : List (List Char))
    (h : ∀ l ∈ ls, '\n' ∉ l ∧ l.all isJsWs = false) :
    freadLines (some (joinNl ls)) = ls := by
  induction ls with
  | nil => rfl
  | cons l tl ih =>
    have hl := h l (List.mem_cons_self l tl)
    have hjoin : joinNl (l :: tl) = l ++ '\n' :: joinNl tl := by
      simp [joinNl]
    have ihh := ih (fun x hx => h x (List.mem_cons_of_mem l hx))
    simp only [freadLines, hjoin, splitOnNl_append l (joinNl tl) hl.1, List.filter_cons,
      hl.2, Bool.not_false, if_true]
    simpa [freadLines] using ihh

/-- C6: `readLines` yields the empty sequence for a missing file, and for
any sequence of appended lines (newline-free and non-blank, the caller's
contract) it yields them back in append-call order. -/
theorem claim_C6 :
    freadLines none = [] ∧
    (∀ ls : List (List Char), (∀ l ∈ ls, '\n' ∉ l ∧ l.all isJsWs = false) →
      freadLines (ls.foldl fappend none) = ls) := by
  refine ⟨rfl, ?_⟩
  intro ls h
  cases ls with
  | nil => rfl
  | cons l tl =>
    have hl : '\n' ∉ l := (h l (List.mem_cons_self l tl)).1
    have htl : ∀ x ∈ tl, '\n' ∉ x := fun x hx => (h x (List.mem_cons_of_mem l hx)).1
    rw [List.foldl_cons, fappend_no_newline none l hl,
      foldl_fappend_some tl htl]
    have : (none : Option (List Char)).getD [] ++ (l ++ ['\n']) ++ joinNl tl =
        joinNl (l :: tl) := by
      simp [joinNl]
    rw [this]
    exact freadLines_joinNl (l :: tl) h

/-- Witness for C6 on two concrete appended lines. -/
theorem claim_C6_witness :
    freadLines ([['a'], ['b']].foldl fappend none) = [['a'], ['b']] :=
  claim_C6.2 [['a'], ['b']] (by decide)

/-! ## `get` and the not-found conditions (claim C8)

`FileBackend.get` and `DynamoDBBackend.get`, modelled far enough to show
where each backend absorbs its not-found condition and where it throws.
A stored document is `valid v` (the abstract parsed value) or `corrupt`
(a file whose `JSON5.parse` throws). -/

/-- A key-value file on disk: its parsed content (or unparsable text)
plus its `mtimeMs`. -/
inductive FsDoc (V : Type) where
  | valid (v : V)
  | corrupt
  deriving DecidableEq, Repr

/-- FileBackend configuration relevant to `get`. -/
structure FileBackendCfg where
  baseDir : List Char
  cacheEnabled : Bool
  cacheTtlMs : Nat
  deriving DecidableEq, Repr

/-- A FileBackend cache entry: `{value, loadedAt, mtimeMs}` (`mtimeMs` is
`undefined` when `statSync` failed at caching time). -/
structure FileCacheEntry (V : Type) where
  value : V
  loadedAt : Nat
  mtimeMs : Option Nat
  deriving DecidableEq, Repr

/-- FileBackend state: the files under `baseDir` (path ↦ (doc, mtime))
and the per-process value cache. -/
structure FileState (V : Type) where
  files : List (List Char × (FsDoc V × Nat))
  cache : List (List Char × FileCacheEntry V)
  deriving DecidableEq, Repr

/-- `resolvePath`: `<baseDir>/<namespace>/<sanitizedKey>.json`. -/
def fbResolvePath (baseDir ns k : List Char) : List Char :=
  baseDir ++ '/' :: (ns ++ '/' :: (sanitizeKey k ++ ".json".toList))

/-- `getFileMtimeMs`: `undefined` when the file is missing. -/
def fbMtime {V : Type} (files : List (List Char × (FsDoc V × Nat)))
    (path : List Char) : Option Nat :=
  (alookup path files).map (fun d => d.2)

/-- FileBackend `isCacheValid`: enabled, within TTL, and the on-disk
mtime matches the entry's (`undefined === undefined` holds in JS, so a
`none`/`none` match is valid). -/
def fbIsCacheValid {V : Type} (cfg : FileBackendCfg)
    (files : List (List Char × (FsDoc V × Nat))) (path : List Char)
    (e : FileCacheEntry V) (now : Nat) : Bool :=
  cfg.cacheEnabled && (now - e.loadedAt ≤ cfg.cacheTtlMs) &&
    (fbMtime files path == e.mtimeMs)

/-- The disk part of `FileBackend.get`: `ENOENT` is absorbed as `null`,
an unparsable file propagates the `JSON5.parse` exception, a parsed value
is returned and cached. -/
def fbGetDisk {V : Type} (cfg : FileBackendCfg) (st : FileState V)
    (ns k : List Char) (now : Nat) : Except Unit (Option V × FileState V) :=
  let path := fbResolvePath cfg.baseDir ns k
  match alookup path st.files with
  | none => .ok (none, st)
  | some (doc, mtime) =>
    match doc with
    | .corrupt => .error ()
    | .valid v =>
      .ok (some v,
        if cfg.cacheEnabled then
          { st with cache := asetMap (cacheKey ns k) ⟨v, now, some mtime⟩ st.cache }
        else st)

/-- `FileBackend.get`: cache first, then disk. -/
def fbGet {V : Type} (cfg : FileBackendCfg) (st : FileState V)
    (ns k : List Char) (now : Nat) : Except Unit (Option V × FileState V) :=
  match (if cfg.cacheEnabled then alookup (cacheKey ns k) st.cache else none) with
  | some e =>
    if fbIsCacheValid cfg st.files (fbResolvePath cfg.baseDir ns k) e now then
      .ok (some e.value, st)
    else fbGetDisk cfg st ns k now
  | none => fbGetDisk cfg st ns k now

/-- DynamoDB configuration relevant to `get`. -/
structure DynamoBackendCfg where
  cacheEnabled : Bool
  cacheTtlMs : Nat
  deriving DecidableEq, Repr

/-- A DynamoDB item as read back: its `data` attribute (possibly absent)
and optional `ttl` (Unix seconds). -/
structure DynamoItem (V : Type) where
  data : Option V
  ttl : Option Nat
  deriving DecidableEq, Repr

/-- DynamoDB state: `none` models a missing table (every call raises
`ResourceNotFoundException`), otherwise the items keyed by `(PK, SK)`. -/
structure DynamoState (V : Type) where
  table : Option (List ((List Char × List Char) × DynamoItem V))
  cache : List (List Char × (V × Nat))
  deriving DecidableEq, Repr

/-- `buildPK`: `<namespace>#<key>`. -/
def ddbPK (ns k : List Char) : List Char := ns ++ '#' :: k

/-- The constant sort key `"DATA"`. -/
def ddbSK : List Char := "DATA".toList

/-- The request part of `DynamoDBBackend.get`: a missing table
(`ResourceNotFoundException`) and a missing item both give `null`, an
expired `ttl` (nonzero, in the past) gives `null`, a present `data`
attribute is returned and cached, an absent one gives `null`. -/
def ddbGetItem {V : Type} (cfg : DynamoBackendCfg) (st : DynamoState V)
    (ns k : List Char) (nowMs : Nat) : Except Unit (Option V × DynamoState V) :=
  match st.table with
  | none => .ok (none, st)
  | some items =>
    match alookup (ddbPK ns k, ddbSK) items with
    | none => .ok (none, st)
    | some item =>
      if (match item.ttl with
          | some t => decide (t ≠ 0) && decide (t < nowMs / 1000)
          | none => false) then
        .ok (none, st)
      else
        match item.data with
        | none => .ok (none, st)
        | some v =>
          .ok (some v,
            if cfg.cacheEnabled then
              { st with cache := asetMap (cacheKey ns k) (v, nowMs) st.cache }
            else st)

/-- `DynamoDBBackend.get`: cache first, then a `GetCommand`. -/
def ddbGet {V : Type} (cfg : DynamoBackendCfg) (st : DynamoState V)
    (ns k : List Char) (nowMs : Nat) : Except Unit (Option V × DynamoState V) :=
  match (if cfg.cacheEnabled then alookup (cacheKey ns k) st.cache else none) with
  | some (v, la) =>
    if cfg.cacheEnabled && (nowMs - la ≤ cfg.cacheTtlMs) then .ok (some v, st)
    else ddbGetItem cfg st ns k nowMs
  | none => ddbGetItem cfg st ns k nowMs

/-- The DynamoDB item for `(ns, k)` is absent (vacuously so when the
whole table is missing). -/
def ddbItemAbsent {V : Type} (st : DynamoState V) (ns k : List Char) : Prop :=
  ∀ items, st.table = some items → alookup (ddbPK ns k, ddbSK) items = none

/-- C8: a `get` on a missing key returns absent without throwing on all
three key-value backends: FileBackend absorbs `ENOENT`, DynamoDB absorbs
`ResourceNotFoundException` / a missing item, and the event-memory
backend treats a missing session as absent. -/
theorem claim_C8 :
    (∀ {V : Type} (cfg : FileBackendCfg) (st : FileState V) (ns k : List Char)
      (now : Nat),
      alookup (fbResolvePath cfg.baseDir ns k) st.files = none →
      alookup (cacheKey ns k) st.cache = none →
      fbGet cfg st ns k now = .ok (none, st)) ∧
    (∀ {V : Type} (cfg : DynamoBackendCfg) (st : DynamoState V) (ns k : List Char)
      (nowMs : Nat),
      alookup (cacheKey ns k) st.cache = none →
      ddbItemAbsent st ns k →
      ddbGet cfg st ns k nowMs = .ok (none, st)) ∧
    (∀ {V : Type} (be : AgentCoreBackend) (st : BackendState V) (ns k : List Char)
      (t : Nat),
      alookup (cacheKey ns k) st.cache = none →
      alookup (buildActorId be ns, buildKvSessionId k) st.store.sessions = none →
      bget be st ns k t = (none, st)) := by
  refine ⟨?_, ?_, ?_⟩
  · intro V cfg st ns k now hfile hcache
    have hdisk : fbGetDisk cfg st ns k now = .ok (none, st) := by
      simp only [fbGetDisk, hfile]
    unfold fbGet
    cases hen : cfg.cacheEnabled <;> simp [hen, hcache, hdisk]
  · intro V cfg st ns k nowMs hcache habs
    have hitem : ddbGetItem cfg st ns k nowMs = .ok (none, st) := by
      simp only [ddbGetItem]
      cases htab : st.table with
      | none => rfl
      | some items => simp only [habs items htab]
    unfold ddbGet
    cases hen : cfg.cacheEnabled <;> simp [hen, hcache, hitem]
  · intro V be st ns k t hcache hsession
    have hev : sessionEvents st.store (buildActorId be ns) (buildKvSessionId k) = [] := by
      unfold sessionEvents
      rw [hsession]
      rfl
    unfold bget
    cases hen : be.cacheEnabled <;> simp [hen, hcache, bgetStore, hev]

/-- Witness for C8 at concrete empty states. -/
theorem claim_C8_witness :
    fbGet ⟨['d'], true, 45000⟩ (⟨[], []⟩ : FileState Nat) ['n'] ['k'] 0 =
      .ok (none, (⟨[], []⟩ : FileState Nat)) ∧
    ddbGet ⟨true, 30000⟩ (⟨some [], []⟩ : DynamoState Nat) ['n'] ['k'] 0 =
      .ok (none, (⟨some [], []⟩ : DynamoState Nat)) ∧
    bget ⟨[], true, 45000⟩ (emptyBackendState Nat) ['n'] ['k'] 0 =
      (none, emptyBackendState Nat) := by
  refine ⟨?_, ?_, ?_⟩
  · exact claim_C8.1 ⟨['d'], true, 45000⟩ ⟨[], []⟩ ['n'] ['k'] 0 (by decide) (by decide)
  · exact claim_C8.2.1 ⟨true, 30000⟩ ⟨some [], []⟩ ['n'] ['k'] 0 (by decide)
      (fun items hi => by cases hi; rfl)
  · exact claim_C8.2.2 ⟨[], true, 45000⟩ (emptyBackendState Nat) ['n'] ['k'] 0
      (by decide) (by decide)

/-! ## Blob decoding (claim C2)

`extractJsonFromPythonDict` and `readLines`' raw-string branch.  We model
`JSON.parse(s)` success as a recursive-descent validator `jsonValid` over
the JSON grammar (ECMA-404, as implemented by `JSON.parse`), and the two
wrapper regexes operationally (first-match scan, greedy capture anchored
at the end of the string). -/

/-- JSON grammar whitespace (the only characters `JSON.parse` skips). -/
def isJsonWs (c : Char) : Bool := c = ' ' ∨ c = '\t' ∨ c = '\n' ∨ c = '\r'

/-- Skip JSON whitespace. -/
def skipJsonWs (l : List Char) : List Char := l.dropWhile isJsonWs

/-- Hexadecimal digit (for `\uXXXX` escapes). -/
def isHexDigit (c : Char) : Bool :=
  c.isDigit ∨ ('a' ≤ c ∧ c ≤ 'f') ∨ ('A' ≤ c ∧ c ≤ 'F')

/-- Parse the body of a JSON string after the opening quote; returns the
input following the closing quote.  Raw control characters are rejected,
escapes are `\" \\ \/ \b \f \n \r \t \uXXXX`. -/
def parseStringBody : List Char → Option (List Char)
  | [] => none
  | c :: rest =>
    if c = '"' then some rest
    else if c = '\\' then
      match rest with
      | [] => none
      | e :: rest2 =>
        if e = 'u' then
          match rest2 with
          | a :: b :: c2 :: d :: r3 =>
            if isHexDigit a && isHexDigit b && isHexDigit c2 && isHexDigit d then
              parseStringBody r3
            else none
          | _ => none
        else if e = '"' ∨ e = '\\' ∨ e = '/' ∨ e = 'b' ∨ e = 'f' ∨ e = 'n' ∨
            e = 'r' ∨ e = 't' then
          parseStringBody rest2
        else none
    else if c.toNat < 32 then none
    else parseStringBody rest

/-- Parse the optional exponent part of a JSON number. -/
def parseExp (l : List Char) : Option (List Char) :=
  match l with
  | [] => some l
  | c :: r =>
    if c = 'e' ∨ c = 'E' then
      let r1 := match r with
        | s :: r2 => if s = '+' ∨ s = '-' then r2 else r
        | [] => r
      match r1 with
      | d :: r2 => if d.isDigit then some (r2.dropWhile Char.isDigit) else none
      | [] => none
    else some l

/-- Parse the optional fraction part of a JSON number, then exponent. -/
def parseFrac (l : List Char) : Option (List Char) :=
  match l with
  | '.' :: r =>
    match r with
    | c :: r2 => if c.isDigit then parseExp (r2.dropWhile Char.isDigit) else none
    | [] => none
  | _ => parseExp l

/-- Parse a JSON number `-?(0|[1-9][0-9]*)(\.[0-9]+)?([eE][+-]?[0-9]+)?`. -/
def parseNumber (l : List Char) : Option (List Char) :=
  let l1 := match l with
    | '-' :: r => r
    | _ => l
  match l1 with
  | [] => none
  | c :: r =>
    if c = '0' then parseFrac r
    else if c.isDigit then parseFrac (r.dropWhile Char.isDigit)
    else none

/-- Match a literal keyword tail (`rue`, `alse`, `ull`). -/
def stripLit : List Char → List Char → Option (List Char)
  | [], l => some l
  | k :: ks, l =>
    match l with
    | c :: rest => if c = k then stripLit ks rest else none
    | [] => none

mutual

/-- Parse one JSON value; the fuel bounds the call depth (one unit per
call; `length + 1` always suffices since every two chained calls consume
at least one input character).  Returns the remaining input. -/
def parseVal : Nat → List Char → Option (List Char)
  | 0, _ => none
  | f + 1, l =>
    match skipJsonWs l with
    | [] => none
    | c :: rest =>
      if c = '{' then
        match skipJsonWs rest with
        | [] => none
        | c2 :: r2 =>
          if c2 = '}' then some r2
          else if c2 = '"' then parseMember f r2
          else none
      else if c = '[' then
        match skipJsonWs rest with
        | [] => parseElem f rest
        | c2 :: r2 => if c2 = ']' then some r2 else parseElem f rest
      else if c = '"' then parseStringBody rest
      else if c = 't' then stripLit ['r', 'u', 'e'] rest
      else if c = 'f' then stripLit ['a', 'l', 's', 'e'] rest
      else if c = 'n' then stripLit ['u', 'l', 'l'] rest
      else parseNumber (c :: rest)

/-- Parse object members, positioned right after the opening quote of a
key; returns the input after the closing `}`. -/
def parseMember : Nat → List Char → Option (List Char)
  | 0, _ => none
  | f + 1, l =>
    match parseStringBody l with
    | none => none
    | some r1 =>
      match skipJsonWs r1 with
      | ':' :: r2 =>
        match parseVal f r2 with
        | none => none
        | some r3 =>
          match skipJsonWs r3 with
          | ',' :: r4 =>
            match skipJsonWs r4 with
            | '"' :: r5 => parseMember f r5
            | _ => none
          | '}' :: r4 => some r4
          | _ => none
      | _ => none

/-- Parse array elements, positioned at the first element of a non-empty
array; returns the input after the closing `]`. -/
def parseElem : Nat → List Char → Option (List Char)
  | 0, _ => none
  | f + 1, l =>
    match parseVal f l with
    | none => none
    | some r1 =>
      match skipJsonWs r1 with
      | ',' :: r2 => parseElem f r2
      | ']' :: r2 => some r2
      | _ => none

end

/-- `JSON.parse(s)` succeeds: one value followed only by whitespace. -/
def jsonValid (l : List Char) : Bool :=
  match parseVal (l.length + 1) l with
  | some rest => skipJsonWs rest = ([] : List Char)
  | none => false

/-! ### The wrapper regexes

`/\{_type=line,\s*text=(\{[\s\S]*\})\s*\}$/` and its `data=` twin,
modelled operationally: try every start position left to right (JS
`String.prototype.match` without `g` takes the first position where the
whole pattern matches); at a position, match the literal `{_type=line,`,
skip `\s*`, match the keyword, and take the greedy brace capture that is
followed only by `\s*\}` up to the end of the string. -/

/-- The regex `\s` class (ASCII part; the inputs at hand contain no
exotic Unicode whitespace). -/
def isRegexWs (c : Char) : Bool := isJsWs c

/-- Strip trailing regex whitespace. -/
def dropTrailingWs (l : List Char) : List Char :=
  (l.reverse.dropWhile isRegexWs).reverse

/-- The literal prefix `{_type=line,` of both wrapper regexes. -/
def wrapperLit : List Char :=
  ['{', '_', 't', 'y', 'p', 'e', '=', 'l', 'i', 'n', 'e', ',']

/-- The `text=` keyword. -/
def textKw : List Char := ['t', 'e', 'x', 't', '=']

/-- The `data=` keyword. -/
def dataKw : List Char := ['d', 'a', 't', 'a', '=']

/-- Greedy capture of `(\{[\s\S]*\})\s*\}$` on the rest of the string:
the last character must be `}`, and stripping the trailing whitespace of
what precedes it must leave a block that starts with `{` and ends with
`}` — that block is the (longest possible) capture. -/
def capGreedy (u : List Char) : Option (List Char) :=
  match u with
  | [] => none
  | c :: _ =>
    if c = '{' then
      match u.getLast? with
      | some last =>
        if last = '}' then
          let v := dropTrailingWs u.dropLast
          match v.getLast? with
          | some vl => if vl = '}' then some v else none
          | none => none
        else none
      | none => none
    else none

/-- Attempt the whole wrapper pattern at one start position (`l` is the
suffix of the subject starting there). -/
def wrapperTryAt (kw : List Char) (l : List Char) : Option (List Char) :=
  if wrapperLit.isPrefixOf l then
    let r1 := (l.drop wrapperLit.length).dropWhile isRegexWs
    if kw.isPrefixOf r1 then capGreedy (r1.drop kw.length)
    else none
  else none

/-- Scan start positions left to right for the first full match. -/
def wrapperSearch (kw : List Char) : List Char → Option (List Char)
  | [] => none
  | c :: rest =>
    match wrapperTryAt kw (c :: rest) with
    | some cap => some cap
    | none => wrapperSearch kw rest

/-! ### `pythonDictToJson` (the Python-dict state machine) -/

/-- JS `String.prototype.trim` (ASCII whitespace suffices here). -/
def jsTrim (l : List Char) : List Char :=
  ((l.dropWhile isJsWs).reverse.dropWhile isJsWs).reverse

/-- The test `/^-?\d+(\.\d+)?$/` used to keep numeric values unquoted. -/
def isNumericValue (v : List Char) : Bool :=
  let v1 := match v with
    | '-' :: r => r
    | _ => v
  let ds := v1.takeWhile Char.isDigit
  let rest := v1.dropWhile Char.isDigit
  decide (ds ≠ ([] : List Char)) &&
    (decide (rest = ([] : List Char)) ||
      (match rest with
       | '.' :: r2 => decide (r2 ≠ ([] : List Char)) && r2.all Char.isDigit
       | _ => false))

/-- `value.replace(/\\/g, "\\\\").replace(/"/g, '\\"')`. -/
def escapeJsonString (v : List Char) : List Char :=
  v.flatMap (fun c =>
    if c = '\\' then ['\\', '\\']
    else if c = '"' then ['\\', '"']
    else [c])

/-- `Math.max(result.lastIndexOf("{"), result.lastIndexOf(",")) + 1`,
with `-1` for a missing character (so `0` when neither occurs). -/
def lastBraceOrCommaCount (res : List Char) : Nat :=
  match lastIdxOf '{' res, lastIdxOf ',' res with
  | some a, some b => max a b + 1
  | some a, none => a + 1
  | none, some b => b + 1
  | none, none => 0

/-- The inner `while` that finds the end of a scalar value: stop at a
`,` at depth 0 or at a closing `}`/`]` at depth 0; `{`/`[` increase and
other `}`/`]` decrease the value depth.  Returns the stop index. -/
def scanValueEnd (str : List Char) : Nat → Nat → Nat → Nat
  | 0, i, _ => i
  | fu + 1, i, valueDepth =>
    match str.get? i with
    | none => i
    | some vc =>
      if vc = '{' ∨ vc = '[' then scanValueEnd str fu (i + 1) (valueDepth + 1)
      else if vc = '}' ∨ vc = ']' then
        if valueDepth = 0 then i else scanValueEnd str fu (i + 1) (valueDepth - 1)
      else if vc = ',' ∧ valueDepth = 0 then i
      else scanValueEnd str fu (i + 1) valueDepth

/-- `while (i < str.length && str[i] === " ") i++`. -/
def skipSpacesFrom (str : List Char) : Nat → Nat → Nat
  | 0, i => i
  | fu + 1, i =>
    if str.get? i = some ' ' then skipSpacesFrom str fu (i + 1) else i

/-- The main conversion loop of `pythonDictToJson`.  State: position `i`,
the `inKey`/`keyStart` key-tracking pair and the output `result`.  (The
source also tracks a `depth` counter that is written but never read; it
is omitted.)  Every iteration advances `i`, so `str.length` steps of fuel
suffice. -/
def pyRun (str : List Char) : Nat → Nat → Bool → Nat → List Char → List Char
  | 0, _, _, _, result => result
  | fu + 1, i, inKey, keyStart, result =>
    match str.get? i with
    | none => result
    | some ch =>
      if ch = '{' then pyRun str fu (i + 1) true (i + 1) (result ++ ['{'])
      else if ch = '}' then pyRun str fu (i + 1) false keyStart (result ++ ['}'])
      else if ch = '[' then pyRun str fu (i + 1) inKey keyStart (result ++ ['['])
      else if ch = ']' then pyRun str fu (i + 1) inKey keyStart (result ++ [']'])
      else if ch = '=' ∧ inKey then
        let key := jsTrim ((str.take i).drop keyStart)
        let res2 := result.take (lastBraceOrCommaCount result) ++
          '"' :: (key ++ ['"', ':'])
        let i2 := skipSpacesFrom str str.length (i + 1)
        if str.get? i2 = some '{' ∨ str.get? i2 = some '[' then
          pyRun str fu i2 false keyStart res2
        else
          let vEnd := scanValueEnd str str.length i2 0
          let value := jsTrim ((str.take vEnd).drop i2)
          let res3 :=
            if value = ['n', 'u', 'l', 'l'] ∨ value = ['t', 'r', 'u', 'e'] ∨
                value = ['f', 'a', 'l', 's', 'e'] ∨ isNumericValue value then
              res2 ++ value
            else res2 ++ '"' :: (escapeJsonString value ++ ['"'])
          pyRun str fu vEnd false keyStart res3
      else if ch = ',' then pyRun str fu (i + 1) true (i + 1) (result ++ [','])
      else if inKey then pyRun str fu (i + 1) inKey keyStart result
      else pyRun str fu (i + 1) inKey keyStart (result ++ [ch])

/-- `pythonDictToJson`: already-valid JSON is returned as is; inputs not
delimited by `{`/`}` are rejected; otherwise run the state machine and
validate the converted output by reparsing. -/
def pythonDictToJson (str : List Char) : Option (List Char) :=
  if jsonValid str then some str
  else if str.head? = some '{' ∧ str.getLast? = some '}' then
    let result := pyRun str str.length 0 false 0 []
    if jsonValid result then some result else none
  else none

/-! ### `extractJsonFromPythonDict` and the raw-blob branch of
`readLines` -/

/-- The `text=` branch: a captured payload is kept only when it is a
non-empty valid JSON string. -/
def textBranch (s : List Char) : Option (List Char) :=
  match wrapperSearch textKw s with
  | some cap =>
    if cap ≠ ([] : List Char) ∧ jsonValid cap then some cap else none
  | none => none

/-- The `data=` branch: a captured payload is converted from Python-dict
form; a null or empty conversion falls through. -/
def dataBranch (s : List Char) : Option (List Char) :=
  match wrapperSearch dataKw s with
  | some cap =>
    if cap ≠ ([] : List Char) then
      match pythonDictToJson cap with
      | some conv => if conv ≠ ([] : List Char) then some conv else none
      | none => none
    else none
  | none => none

/-- `extractJsonFromPythonDict`: strict JSON first, then the `text=`
wrapper, then the `data=` wrapper. -/
def extractJsonFromPythonDict (s : List Char) : Option (List Char) :=
  if jsonValid s then some s
  else
    match textBranch s with
    | some cap => some cap
    | none => dataBranch s

/-- The raw-string-blob branch of `readLines`: yield the extraction when
it is non-null (and non-empty, by JS truthiness), else the blob as is. -/
def processRawBlob (s : List Char) : List Char :=
  match extractJsonFromPythonDict s with
  | some e => if e = ([] : List Char) then s else e
  | none => s

/-- The blob string `{_type=line, text=` ++ J ++ `}`. -/
def textWrapperOf (J : List Char) : List Char :=
  wrapperLit ++ (' ' :: (textKw ++ (J ++ ['}'])))

/-! ### Lemmas for claim C2 -/

theorem parseVal_brace_underscore (f : Nat) (rest : List Char) :
    parseVal (f + 1) ('{' :: '_' :: rest) = none := by
  simp [parseVal, skipJsonWs, isJsonWs]

theorem jsonValid_cons_brace_underscore (rest : List Char) :
    jsonValid ('{' :: '_' :: rest) = false := by
  unfold jsonValid
  rw [parseVal_brace_underscore]

theorem jsonValid_textWrapperOf (J : List Char) :
    jsonValid (textWrapperOf J) = false :=
  jsonValid_cons_brace_underscore
    (['t', 'y', 'p', 'e', '=', 'l', 'i', 'n', 'e', ','] ++
      (' ' :: (textKw ++ (J ++ ['}']))))

theorem isPrefixOf_append_self (l r : List Char) : l.isPrefixOf (l ++ r) = true :=
  (List.isPrefixOf_iff_prefix).mpr (List.prefix_append _ _)

theorem dropTrailingWs_of_getLast (l : List Char) (c : Char)
    (h : l.getLast? = some c) (hc : isRegexWs c = false) :
    dropTrailingWs l = l := by
  unfold dropTrailingWs
  have hhd : l.reverse.head? = some c := by rw [List.head?_reverse]; exact h
  cases hrev : l.reverse with
  | nil => rw [hrev] at hhd; cases hhd
  | cons x t =>
    rw [hrev] at hhd
    have hx : x = c := by simpa using hhd
    subst hx
    rw [List.dropWhile_cons, hc]
    have : ((if false = true then List.dropWhile isRegexWs t else x :: t)).reverse =
        (x :: t).reverse := by simp
    rw [this, ← hrev, List.reverse_reverse]

theorem capGreedy_append (J : List Char) (hh : J.head? = some '{')
    (hl : J.getLast? = some '}') : capGreedy (J ++ ['}']) = some J := by
  cases J with
  | nil => cases hh
  | cons c J2 =>
    have hc : c = '{' := by simpa using hh
    subst hc
    have hlast : (('{' :: J2) ++ ['}']).getLast? = some '}' :=
      List.getLast?_concat _
    have hdropLast : (('{' :: J2) ++ ['}']).dropLast = '{' :: J2 :=
      List.dropLast_concat
    have hdtw : dropTrailingWs ('{' :: J2) = '{' :: J2 :=
      dropTrailingWs_of_getLast _ '}' hl (by decide)
    rw [show ('{' :: J2) ++ ['}'] = '{' :: (J2 ++ ['}']) from rfl] at hlast hdropLast ⊢
    unfold capGreedy
    rw [hlast, hdropLast, hdtw]
    simp [hl]

theorem wrapperTryAt_textWrapperOf (J : List Char) (hh : J.head? = some '{')
    (hl : J.getLast? = some '}') :
    wrapperTryAt textKw (textWrapperOf J) = some J := by
  have hdrop : (wrapperLit ++ (' ' :: (textKw ++ (J ++ ['}'])))).drop
      wrapperLit.length = ' ' :: (textKw ++ (J ++ ['}'])) := List.drop_left _ _
  have hstop : (' ' :: (textKw ++ (J ++ ['}']))).dropWhile isRegexWs =
      textKw ++ (J ++ ['}']) := by
    rw [List.dropWhile_cons, if_pos (show isRegexWs ' ' = true by decide)]
    rw [show textKw ++ (J ++ ['}']) = 't' :: (['e', 'x', 't', '='] ++ (J ++ ['}']))
      from rfl]
    rw [List.dropWhile_cons, if_neg (by decide)]
  have hdrop2 : (textKw ++ (J ++ ['}'])).drop textKw.length = J ++ ['}'] :=
    List.drop_left _ _
  simp only [wrapperTryAt, textWrapperOf, isPrefixOf_append_self, if_true, hdrop,
    hstop, hdrop2, capGreedy_append J hh hl]

theorem wrapperSearch_cons_of_tryAt (kw : List Char) (c : Char)
    (rest cap : List Char) (h : wrapperTryAt kw (c :: rest) = some cap) :
    wrapperSearch kw (c :: rest) = some cap := by
  unfold wrapperSearch
  rw [h]

theorem wrapperSearch_textWrapperOf (J : List Char) (hh : J.head? = some '{')
    (hl : J.getLast? = some '}') :
    wrapperSearch textKw (textWrapperOf J) = some J := by
  have hW : textWrapperOf J =
      '{' :: ('_' :: (['t', 'y', 'p', 'e', '=', 'l', 'i', 'n', 'e', ','] ++
        (' ' :: (textKw ++ (J ++ ['}']))))) := rfl
  rw [hW]
  exact wrapperSearch_cons_of_tryAt _ _ _ _
    (hW ▸ wrapperTryAt_textWrapperOf J hh hl)

theorem textBranch_textWrapperOf (J : List Char) (hh : J.head? = some '{')
    (hl : J.getLast? = some '}') (hv : jsonValid J = true) :
    textBranch (textWrapperOf J) = some J := by
  unfold textBranch
  rw [wrapperSearch_textWrapperOf J hh hl]
  have hne : J ≠ ([] : List Char) := by
    intro h0
    rw [h0] at hh
    cases hh
  show (if J ≠ ([] : List Char) ∧ jsonValid J = true then some J else none) = some J
  rw [if_pos ⟨hne, hv⟩]

/-- C2 (amended): a raw blob `{_type=line, text=J}` whose payload `J` is
valid JSON delimited by braces (as the wrapper regex requires) yields
exactly `J`; a blob matching neither valid JSON nor a wrapper branch is
yielded untouched; the S4 blob yields its embedded message object. -/
theorem claim_C2 :
    (∀ J : List Char, J.head? = some '{' → J.getLast? = some '}' →
      jsonValid J = true → processRawBlob (textWrapperOf J) = J) ∧
    (∀ s : List Char, jsonValid s = false → textBranch s = none →
      dataBranch s = none → processRawBlob s = s) ∧
    processRawBlob
        "\x7b_type=line, text=\x7b\"role\":\"assistant\",\"content\":[\x7b\"text\":\"hi\"\x7d]\x7d\x7d".toList =
      "\x7b\"role\":\"assistant\",\"content\":[\x7b\"text\":\"hi\"\x7d]\x7d".toList := by
  refine ⟨?_, ?_, by decide⟩
  · intro J hh hl hv
    have hne : J ≠ ([] : List Char) := by
      intro h0
      rw [h0] at hh
      cases hh
    unfold processRawBlob extractJsonFromPythonDict
    rw [jsonValid_textWrapperOf, if_neg (by simp),
      textBranch_textWrapperOf J hh hl hv]
    show (if J = ([] : List Char) then textWrapperOf J else J) = J
    rw [if_neg hne]
  · intro s h1 h2 h3
    unfold processRawBlob extractJsonFromPythonDict
    rw [h1, if_neg (by simp), h2, h3]

/-- C2 counterexample: for the valid-JSON payload `J = 5` the blob
`{_type=line, text=5}` does not yield `J` — the wrapper regex requires a
brace-delimited payload, so the raw blob is passed through. -/
theorem claim_C2_counterexample :
    jsonValid ['5'] = true ∧
    processRawBlob (textWrapperOf ['5']) = textWrapperOf ['5'] ∧
    textWrapperOf ['5'] ≠ ['5'] := by
  refine ⟨by decide, by decide, by decide⟩

/-- Witness for C2 at concrete inputs: an object payload round-trips,
and a non-matching blob passes through untouched. -/
theorem claim_C2_witness :
    processRawBlob (textWrapperOf "\x7b\"a\":1\x7d".toList) =
      "\x7b\"a\":1\x7d".toList ∧
    processRawBlob "hello".toList = "hello".toList := by
  constructor
  · exact claim_C2.1 "\x7b\"a\":1\x7d".toList (by decide) (by decide) (by decide)
  · exact claim_C2.2.1 "hello".toList (by decide) (by decide) (by decide)

end OpenClaw
